import Mathlib

/-!
Shallow embedding of `exchangelib/queryset.py` (class `QuerySet`): a lazy,
chainable query builder over a remote folder, with an execution planner
(`_query`), a one-time result cache (`__iter__`/`__len__`/`__getitem__`),
projection formatters (`as_values`, `as_values_list`, `as_flat_values_list`),
a chaining surface (`all`, `none`, `filter`, `exclude`, `only`, `order_by`,
`reverse`, `values`, `values_list`) and terminal operations (`get`, `count`,
`exists`).

Modelling conventions:
* Attribute values are `Option Int` (`Option.none` models Python `None`;
  exchangelib items expose every registered field as an attribute defaulting
  to `None`, and missing attributes read as `None`).
* Python exceptions are modelled with `Except String`; the string is the
  message (or the exception kind for `DoesNotExist` etc.).
* Remote traffic is made observable: the planner returns, next to its result,
  the list of remote calls (`find_items` / `fetch`) it issued.
* Python `sorted` is a stable sort; it is modelled by the stable insertion
  sort `stableSort` below (any two stable sorts for a total transitive
  comparator agree extensionally).
* Python `set` iteration order is unspecified; where the source materializes
  a set into a tuple (`extra_order_fields`) we determinize to
  first-occurrence order of the originating sequence.
-/

/-- A stable insertion step: `a` is placed before the first element `b`
with `le a b` (ties keep the inserted element first, which yields
stability when used by `stableSort`). -/
def insertS {α : Type} (le : α → α → Bool) (a : α) : List α → List α
  | [] => [a]
  | b :: l => if le a b then a :: b :: l else b :: insertS le a l

/-- Stable sort with a `Bool` comparator, modelling Python's stable
`sorted(..., key=..., reverse=...)` once the key and direction are folded
into `le`. -/
def stableSort {α : Type} (le : α → α → Bool) : List α → List α
  | [] => []
  | x :: xs => insertS le x (stableSort le xs)

/-- An item of the remote collection.  `item_id` and `changekey` are the two
universal identity fields; all other fields live in the association list
`attrs`. -/
structure Item where
  item_id : Option Int
  changekey : Option Int
  attrs : List (String × Option Int)
deriving DecidableEq, Repr

/-- Python `getattr(i, f)`: identity fields are structure fields, everything
else is read from `attrs`, defaulting to `None` for absent attributes. -/
def Item.getattr (i : Item) (f : String) : Option Int :=
  if f = "item_id" then i.item_id
  else if f = "changekey" then i.changekey
  else match i.attrs.lookup f with
    | some v => v
    | Option.none => Option.none

/-- Update an association list at key `f` (replace the first binding, or
append a new one). -/
def setA (f : String) (v : Option Int) : List (String × Option Int) → List (String × Option Int)
  | [] => [(f, v)]
  | (k, w) :: rest => if k = f then (f, v) :: rest else (k, w) :: setA f v rest

/-- Python `setattr(i, f, None)`, as used by the planner's cleanup step. -/
def Item.setattrN (i : Item) (f : String) : Item :=
  if f = "item_id" then { i with item_id := Option.none }
  else if f = "changekey" then { i with changekey := Option.none }
  else { i with attrs := setA f Option.none i.attrs }

/-- An element of a result sequence: either a raw identity pair, as returned
by the listing service on the shortcut path, or a hydrated object. -/
inductive Elem where
  | pair (item_id changekey : Option Int)
  | obj (i : Item)
deriving DecidableEq, Repr

/-- The term `attrgetter` applied to a result element; the planner only sorts
sequences of hydrated objects, so the `pair` case is unreachable there
(in Python it would raise `AttributeError`). -/
def getattrE : Elem → String → Option Int
  | Elem.obj i, f => i.getattr f
  | Elem.pair _ _, _ => Option.none

/-- The predicate expression (`Q` of `exchangelib.restriction`), kept
first-order so that everything stays decidable: `empty` is `Q()`
("match everything"), `cond f v` is a single `field == value` comparison
built by `Q.from_filter_args`. -/
inductive Q where
  | empty : Q
  | cond (field : String) (value : Option Int) : Q
  | and : Q → Q → Q
  | not : Q → Q
deriving DecidableEq, Repr

/-- Semantics of a predicate expression on one item. -/
def Q.eval : Q → Item → Bool
  | Q.empty, _ => true
  | Q.cond f v, i => i.getattr f = v
  | Q.and a b, i => a.eval i && b.eval i
  | Q.not a, i => !(a.eval i)

/-- One remote call, recorded in the planner's trace. -/
inductive Call where
  | find_items (q : Q) (additional_fields : Option (List String))
  | fetch (ids : List Elem) (only_fields : List String)
deriving DecidableEq, Repr

/-- The item to restricted-field-set object mapping performed by the remote
services: identity fields are always present, `attrs` holds exactly the
requested field names (unknown names read as `None`). -/
def Item.restrict (i : Item) (flds : List String) : Item :=
  { item_id := i.item_id, changekey := i.changekey,
    attrs := (flds.filter (fun f => !(f == "item_id" || f == "changekey"))).map
      (fun f => (f, i.getattr f)) }

/-- The owning collection: field catalog, the subset of fields the listing
service cannot return, and the remote contents. -/
structure Folder where
  allowed_field_names : List String
  complex_field_names : List String
  items : List Item
deriving DecidableEq, Repr

/-- The listing service (`folder.find_items`): items matching `q`; with
`additional_fields = none` it returns identity pairs only, otherwise
objects restricted to the requested fields. -/
def Folder.find_items (fo : Folder) (q : Q) (additional_fields : Option (List String)) :
    List Elem :=
  let m := fo.items.filter (fun i => q.eval i)
  match additional_fields with
  | Option.none => m.map (fun i => Elem.pair i.item_id i.changekey)
  | some flds => m.map (fun i => Elem.obj (i.restrict flds))

/-- The fetch-by-id service (`folder.fetch`): hydrates each identity pair
from the remote contents, restricted to `only_fields`. -/
def Folder.fetch (fo : Folder) (ids : List Elem) (only_fields : List String) : List Elem :=
  ids.filterMap (fun e =>
    match e with
    | Elem.pair iid ck =>
        (fo.items.find? (fun i => i.item_id = iid && i.changekey = ck)).map
          (fun i => Elem.obj (i.restrict only_fields))
    | Elem.obj _ => Option.none)

/-- The output-shape tag (`QuerySet.RETURN_TYPES`). -/
inductive ReturnFormat where
  | NONE | VALUES | VALUES_LIST | FLAT
deriving DecidableEq, Repr

/-- One element yielded by consuming a queryset, in the shape selected by
`return_format`: a raw cache element, a dict, a tuple or a bare value. -/
inductive Out where
  | item (e : Elem)
  | map (m : List (String × Option Int))
  | tup (t : List (Option Int))
  | flat (v : Option Int)
deriving DecidableEq, Repr

/-- The `QuerySet` state: `q = Option.none` is the null-sentinel set by
`none()` (distinct from `some Q.empty`, the initial "match everything"),
`cache` is `_cache`. -/
structure QuerySet where
  folder : Folder
  q : Option Q
  only_fields : Option (List String)
  order_fields : Option (List String)
  reversed : Bool
  return_format : ReturnFormat
  cache : Option (List Elem)
deriving DecidableEq, Repr

/-- The term `QuerySet.__init__`. -/
def QuerySet.init (fo : Folder) : QuerySet :=
  { folder := fo, q := some Q.empty, only_fields := Option.none,
    order_fields := Option.none, reversed := false,
    return_format := ReturnFormat.NONE, cache := Option.none }

/-- The term `QuerySet.copy`: all specification state is carried over, the cache is
never copied. -/
def QuerySet.copy (qs : QuerySet) : QuerySet := { qs with cache := Option.none }

/-- Python truthiness of `self.order_fields` (`None` and the empty tuple are
both falsy). -/
def orderTruthy (qs : QuerySet) : Bool :=
  match qs.order_fields with
  | some (_ :: _) => true
  | _ => false

/-- The order keys as a plain list (only read on paths where
`order_fields` is truthy). -/
def orderL (qs : QuerySet) : List String := qs.order_fields.getD []

/-- Python `f.lstrip('-')`: drop every leading descending marker. -/
def stripDash (s : String) : String := String.mk (s.data.dropWhile (fun c => c = '-'))

/-- Python `f.startswith('-')`. -/
def startsDash (s : String) : Bool :=
  match s.data with
  | '-' :: _ => true
  | _ => false

/-- First-occurrence deduplication, determinizing the source's `set(...)`
materialization order. -/
def pyDedupAux : List String → List String → List String
  | _, [] => []
  | seen, x :: xs =>
      if x ∈ seen then pyDedupAux seen xs else x :: pyDedupAux (x :: seen) xs

/-- First-occurrence deduplication of a list of field names. -/
def pyDedup (l : List String) : List String := pyDedupAux [] l

/-- Sort key comparator for one order key `f` as used by one `sorted` pass of
`_query`: key `attrgetter(f.lstrip('-'))`, direction reversed iff
`f.startswith('-')`.  `oleB` below is the (total, transitive) order on
attribute values. -/
def oleB : Option Int → Option Int → Bool
  | Option.none, _ => true
  | some _, Option.none => false
  | some a, some b => a ≤ b

/-- One `sorted(items, key=attrgetter(f.lstrip('-')), reverse=f.startswith('-'))`
pass, folded into a single comparator (stable sorting with the reversed
comparator models Python's stable `reverse=True`). -/
def keyLeB (f : String) (a b : Elem) : Bool :=
  if startsDash f then oleB (getattrE b (stripDash f)) (getattrE a (stripDash f))
  else oleB (getattrE a (stripDash f)) (getattrE b (stripDash f))

/-- The multi-key sort loop of `_query`: one stable pass per order key,
processing the keys in reverse declaration order (the recursion nests the
last key innermost, so the first key is sorted last). -/
def multiPassSort : List String → List Elem → List Elem
  | [], xs => xs
  | f :: rest, xs => stableSort (keyLeB f) (multiPassSort rest xs)

/-- Lexicographic comparison induced by a declared key list: strictly smaller
on the first key, or tied on it and lexicographically smaller on the rest.
Per-key direction is included via `keyLeB`. -/
def lexLeB : List String → Elem → Elem → Bool
  | [], _, _ => true
  | f :: rest, a, b => keyLeB f a b && (!(keyLeB f b a) || lexLeB rest a b)

/-- Tie under every declared key. -/
def lexEqB (fs : List String) (a b : Elem) : Bool := lexLeB fs a b && lexLeB fs b a

/-- The term `_query` line "additional_fields" before order-field extension: the full
catalog when `only_fields` was never set, else `only_fields` minus the two
identity fields. -/
def afBase (qs : QuerySet) : List String :=
  match qs.only_fields with
  | Option.none => qs.folder.allowed_field_names
  | some flds => flds.filter (fun f => !(f == "item_id" || f == "changekey"))

/-- The term `complex_fields_requested` (computed from the base field set, before
order-only fields are merged in, exactly as in the source). -/
def complexRequested (qs : QuerySet) : Bool :=
  (afBase qs).any (fun f => qs.folder.complex_field_names.contains f)

/-- The term `extra_order_fields = set(self.order_fields) - set(additional_fields)`.
Note the source does not strip the leading `-` here. -/
def extraOrderFields (qs : QuerySet) : List String :=
  if orderTruthy qs then (pyDedup (orderL qs)).filter (fun g => !((afBase qs).contains g))
  else []

/-- The final `additional_fields` handed to the remote services. -/
def afFinal (qs : QuerySet) : List String := afBase qs ++ extraOrderFields qs

/-- The retrieval stage of `_query`: two-stage fetch-by-id when a complex
field is requested, direct listing otherwise.  Returns the sequence and the
remote-call trace. -/
def retrieveT (qs : QuerySet) (q : Q) : List Elem × List Call :=
  if complexRequested qs then
    let ids := qs.folder.find_items q Option.none
    (qs.folder.fetch ids (afFinal qs),
      [Call.find_items q Option.none, Call.fetch ids (afFinal qs)])
  else
    (qs.folder.find_items q (some (afFinal qs)),
      [Call.find_items q (some (afFinal qs))])

/-- The term `clean_item`: null out the fields that were fetched only for sorting. -/
def cleanElem (extra : List String) : Elem → Elem
  | Elem.obj i => Elem.obj (extra.foldl (fun acc f => acc.setattrN f) i)
  | Elem.pair a b => Elem.pair a b

/-- The post-retrieval stage of `_query`: multi-key stable sort, global
reversal if requested, then nulling of sort-only fields. -/
def sortStage (qs : QuerySet) (items : List Elem) : List Elem :=
  if orderTruthy qs then
    let s := multiPassSort (orderL qs) items
    let r := if qs.reversed then s.reverse else s
    if !(extraOrderFields qs).isEmpty then r.map (cleanElem (extraOrderFields qs)) else r
  else items

/-- The term `QuerySet._query` with its remote-call trace (only invoked when
`self.q` is not the null-sentinel). -/
def queryT (qs : QuerySet) (q : Q) : List Elem × List Call :=
  if (afFinal qs).isEmpty && !(orderTruthy qs) then
    (qs.folder.find_items q Option.none, [Call.find_items q Option.none])
  else
    let rc := retrieveT qs q
    (sortStage qs rc.1, rc.2)

/-- Fill `_cache` on first consumption: the empty sequence for the
null-sentinel predicate, otherwise the planner's output. -/
def fillCache (qs : QuerySet) : QuerySet × List Call :=
  match qs.cache with
  | some _ => (qs, [])
  | Option.none =>
      match qs.q with
      | Option.none => ({ qs with cache := some [] }, [])
      | some q =>
          let rc := queryT qs q
          ({ qs with cache := some rc.1 }, rc.2)

/-- Error-propagating traversal: models consuming a Python generator with
`list(...)` — an exception raised mid-way propagates and no value is
produced. -/
def travE (f : Elem → Except String Out) : List Elem → Except String (List Out)
  | [] => Except.ok []
  | e :: es =>
      match f e with
      | Except.error s => Except.error s
      | Except.ok o =>
          match travE f es with
          | Except.error s => Except.error s
          | Except.ok os => Except.ok (o :: os)

/-- Body of `QuerySet.as_values` once `self.only_fields` is known to be a
tuple `flds`. -/
def as_values_flds (qs : QuerySet) (flds : List String) (c : List Elem) :
    Except String (List Out) :=
  if flds.isEmpty then Except.error "values() requires at least one field name"
  else
    let additional := flds.filter (fun f => !(f == "item_id" || f == "changekey"))
    if additional.isEmpty && !(orderTruthy qs) then
      if !(flds.contains "changekey") then
        travE (fun e =>
          match e with
          | Elem.pair a _ => Except.ok (Out.map [("item_id", a)])
          | Elem.obj _ => Except.error "TypeError: cannot unpack item") c
      else if !(flds.contains "item_id") then
        travE (fun e =>
          match e with
          | Elem.pair _ b => Except.ok (Out.map [("changekey", b)])
          | Elem.obj _ => Except.error "TypeError: cannot unpack item") c
      else
        travE (fun e =>
          match e with
          | Elem.pair a b => Except.ok (Out.map [("item_id", a), ("changekey", b)])
          | Elem.obj _ => Except.error "TypeError: cannot unpack item") c
    else
      travE (fun e =>
        match e with
        | Elem.obj i => Except.ok (Out.map ((pyDedup flds).map (fun k => (k, i.getattr k))))
        | Elem.pair _ _ => Except.error "AttributeError") c

/-- The term `QuerySet.as_values` applied to the cached sequence. -/
def as_values (qs : QuerySet) (c : List Elem) : Except String (List Out) :=
  match qs.only_fields with
  | Option.none => Except.error "TypeError: object of type NoneType has no len()"
  | some flds => as_values_flds qs flds c

/-- Body of `QuerySet.as_values_list` once `self.only_fields` is known to
be a tuple `flds`. -/
def as_values_list_flds (qs : QuerySet) (flds : List String) (c : List Elem) :
    Except String (List Out) :=
  if flds.isEmpty then Except.error "values_list() requires at least one field name"
  else
    let additional := flds.filter (fun f => !(f == "item_id" || f == "changekey"))
    if additional.isEmpty && !(orderTruthy qs) then
      if !(flds.contains "changekey") then
        travE (fun e =>
          match e with
          | Elem.pair a _ => Except.ok (Out.tup [a])
          | Elem.obj _ => Except.error "TypeError: cannot unpack item") c
      else if !(flds.contains "item_id") then
        travE (fun e =>
          match e with
          | Elem.pair _ b => Except.ok (Out.tup [b])
          | Elem.obj _ => Except.error "TypeError: cannot unpack item") c
      else
        travE (fun e =>
          match e with
          | Elem.pair a b => Except.ok (Out.tup [a, b])
          | Elem.obj _ => Except.error "TypeError: cannot unpack item") c
    else
      travE (fun e =>
        match e with
        | Elem.obj i => Except.ok (Out.tup (flds.map (fun k => i.getattr k)))
        | Elem.pair _ _ => Except.error "AttributeError") c

/-- The term `QuerySet.as_values_list` applied to the cached sequence. -/
def as_values_list (qs : QuerySet) (c : List Elem) : Except String (List Out) :=
  match qs.only_fields with
  | Option.none => Except.error "TypeError: object of type NoneType has no len()"
  | some flds => as_values_list_flds qs flds c

/-- Body of `QuerySet.as_flat_values_list` once `self.only_fields` is known
to be a tuple `flds`. -/
def as_flat_flds (qs : QuerySet) (flds : List String) (c : List Elem) :
    Except String (List Out) :=
  if flds.length ≠ 1 then Except.error "flat=True requires exactly one field name"
  else
    let additional := flds.filter (fun f => !(f == "item_id" || f == "changekey"))
    if additional.isEmpty && !(orderTruthy qs) then
      if flds.contains "item_id" then
        travE (fun e =>
          match e with
          | Elem.pair a _ => Except.ok (Out.flat a)
          | Elem.obj _ => Except.error "TypeError: cannot unpack item") c
      else if flds.contains "changekey" then
        travE (fun e =>
          match e with
          | Elem.pair _ b => Except.ok (Out.flat b)
          | Elem.obj _ => Except.error "TypeError: cannot unpack item") c
      else Except.error "AssertionError"
    else
      travE (fun e =>
        match e with
        | Elem.obj i => Except.ok (Out.flat (i.getattr (flds.headD "")))
        | Elem.pair _ _ => Except.error "AttributeError") c

/-- The term `QuerySet.as_flat_values_list` applied to the cached sequence. -/
def as_flat_values_list (qs : QuerySet) (c : List Elem) : Except String (List Out) :=
  match qs.only_fields with
  | Option.none => Except.error "TypeError: object of type NoneType has no len()"
  | some flds => as_flat_flds qs flds c

/-- The dispatch table of `__iter__`: apply the projection selected by
`return_format` to the cached sequence. -/
def project (qs : QuerySet) (c : List Elem) : Except String (List Out) :=
  match qs.return_format with
  | ReturnFormat.NONE => Except.ok (c.map Out.item)
  | ReturnFormat.VALUES => as_values qs c
  | ReturnFormat.VALUES_LIST => as_values_list qs c
  | ReturnFormat.FLAT => as_flat_values_list qs c

/-- Consuming the queryset by iteration (`list(qs)`): fill the cache, then
apply the projection.  Returns the yielded sequence (or the raised error),
the remote calls made, and the post-consumption queryset state. -/
def iterRun (qs : QuerySet) : Except String (List Out) × List Call × QuerySet :=
  let p := fillCache qs
  (project p.1 (p.1.cache.getD []), p.2, p.1)

/-- The term `QuerySet.__len__`: fills the cache (the projection generator is created
but never advanced, so no projection error can surface here). -/
def lenRun (qs : QuerySet) : Nat × List Call × QuerySet :=
  let p := fillCache qs
  ((p.1.cache.getD []).length, p.2, p.1)

/-- The term `QuerySet.__getitem__` with an integer index: fills the cache and
returns the raw cached element (`Option.none` models `IndexError`). -/
def getItemRun (qs : QuerySet) (k : Nat) : Option Elem × List Call × QuerySet :=
  let p := fillCache qs
  ((p.1.cache.getD [])[k]?, p.2, p.1)

/-- The term `QuerySet.__getitem__` with a slice `[a:b]` (non-negative bounds):
fills the cache and returns the raw cached slice. -/
def getSliceRun (qs : QuerySet) (a b : Nat) : List Elem × List Call × QuerySet :=
  let p := fillCache qs
  ((((p.1.cache.getD []).drop a).take (b - a)), p.2, p.1)

/-- The term `QuerySet._check_fields`: every name must be in the folder's catalog or
be one of the two identity fields (the first offender is reported). -/
def fieldOk (fo : Folder) (f : String) : Bool :=
  fo.allowed_field_names.contains f || f == "item_id" || f == "changekey"

/-- Validation loop of `_check_fields`. -/
def check_fields (fo : Folder) : List String → Except String Unit
  | [] => Except.ok ()
  | f :: rest =>
      if fieldOk fo f then check_fields fo rest
      else Except.error ("Unknown fieldname " ++ f)

/-- The term `QuerySet.all`. -/
def QuerySet.all (qs : QuerySet) : QuerySet := qs.copy

/-- The term `QuerySet.none`: predicate forced to the null-sentinel. -/
def QuerySet.none (qs : QuerySet) : QuerySet := { qs.copy with q := Option.none }

/-- The term `QuerySet.filter`: `Option.none` for the argument models calling with no
conditions (`Q.from_filter_args` returns a falsy value and `Q()` is used). -/
def QuerySet.filter (qs : QuerySet) (qopt : Option Q) : QuerySet :=
  let nq := qs.copy
  let qn := qopt.getD Q.empty
  { nq with
    q := match nq.q with
         | Option.none => some qn
         | some q0 => some (Q.and q0 qn) }

/-- The term `QuerySet.exclude` with valid (translatable) conditions. -/
def QuerySet.exclude (qs : QuerySet) (qarg : Q) : QuerySet :=
  let nq := qs.copy
  { nq with
    q := match nq.q with
         | Option.none => some (Q.not qarg)
         | some q0 => some (Q.and q0 (Q.not qarg)) }

/-- The term `QuerySet.only`. -/
def QuerySet.only (qs : QuerySet) (flds : List String) : Except String QuerySet :=
  match check_fields qs.folder flds with
  | Except.error e => Except.error (e ++ " in only()")
  | Except.ok _ => Except.ok { qs.copy with only_fields := some flds }

/-- The term `QuerySet.order_by` (the descending marker is stripped before
validation, but the stored keys keep it). -/
def QuerySet.order_by (qs : QuerySet) (flds : List String) : Except String QuerySet :=
  match check_fields qs.folder (flds.map stripDash) with
  | Except.error e => Except.error (e ++ " in order_by()")
  | Except.ok _ => Except.ok { qs.copy with order_fields := some flds }

/-- The term `QuerySet.reverse`. -/
def QuerySet.reverse (qs : QuerySet) : Except String QuerySet :=
  if orderTruthy qs then Except.ok { qs.copy with reversed := !qs.reversed }
  else Except.error "Reversing only makes sense if there are order_by fields"

/-- The term `QuerySet.values`. -/
def QuerySet.values (qs : QuerySet) (flds : List String) : Except String QuerySet :=
  match check_fields qs.folder flds with
  | Except.error e => Except.error (e ++ " in values()")
  | Except.ok _ =>
      Except.ok { qs.copy with only_fields := some flds,
                               return_format := ReturnFormat.VALUES }

/-- The term `QuerySet.values_list`. -/
def QuerySet.values_list (qs : QuerySet) (flat : Bool) (flds : List String) :
    Except String QuerySet :=
  match check_fields qs.folder flds with
  | Except.error e => Except.error (e ++ " in values_list()")
  | Except.ok _ =>
      Except.ok { qs.copy with only_fields := some flds,
                               return_format :=
                                 if flat then ReturnFormat.FLAT else ReturnFormat.VALUES_LIST }

/-- The term `QuerySet.get`: filter, fully materialize, then demand exactly one
result. -/
def getRun (qs : QuerySet) (qopt : Option Q) : Except String Out × List Call :=
  let r := iterRun (qs.filter qopt)
  match r.1 with
  | Except.error e => (Except.error e, r.2.1)
  | Except.ok items =>
      match items with
      | [] => (Except.error "DoesNotExist", r.2.1)
      | [x] => (Except.ok x, r.2.1)
      | _ => (Except.error "MultipleObjectsReturned", r.2.1)

/-- The term `QuerySet.count`: a throwaway copy with `only_fields` forced empty and
ordering cleared, then `len(list(...))` — note the copy keeps
`return_format`. -/
def countRun (qs : QuerySet) : Except String Nat × List Call :=
  let nq := { qs.copy with only_fields := some ([] : List String),
                           order_fields := (Option.none : Option (List String)),
                           reversed := false }
  let r := iterRun nq
  (r.1.map List.length, r.2.1)

/-- The term `QuerySet.exists`. -/
def existsRun (qs : QuerySet) : Except String Bool × List Call :=
  let r := countRun qs
  (r.1.map (fun n => decide (n > 0)), r.2)

/-- The term `Except.isError` helper (avoiding a dependency on library naming). -/
def isErr {ε α : Type} : Except ε α → Bool
  | Except.error _ => true
  | Except.ok _ => false

/-! ### Concrete test fixture -/

/-- A small concrete folder: catalog `a`, `b`, `subject`, no complex fields,
two items (`b` and `subject` differ, `a` is tied). -/
def fldA : Folder :=
  { allowed_field_names := ["a", "b", "subject"],
    complex_field_names := [],
    items :=
      [ { item_id := some 1, changekey := some 10,
          attrs := [("a", some 1), ("b", some 1), ("subject", some 5)] },
        { item_id := some 2, changekey := some 20,
          attrs := [("a", some 1), ("b", some 2), ("subject", some 6)] } ] }

/-- The pristine queryset over `fldA`. -/
def qsBase : QuerySet := QuerySet.init fldA

/-- The term `qsBase.only(["a"])`. -/
def qsOnlyA : QuerySet := { qsBase with only_fields := some ["a"] }

/-- The term `qsBase.only(["a"]).order_by(["-b"])`: the descending order key `-b` is
not in the requested field set. -/
def qsC2 : QuerySet := { qsOnlyA with order_fields := some ["-b"] }

/-- The term `qsBase.values(["subject"])`. -/
def qsV : QuerySet :=
  { qsBase with only_fields := some ["subject"], return_format := ReturnFormat.VALUES }

/-- The term `qsBase.values([])`: a mapping-shaped queryset with zero requested
fields (the chaining call accepts it). -/
def qsV0 : QuerySet :=
  { qsBase with only_fields := some [], return_format := ReturnFormat.VALUES }

/-- A queryset with one ordering key, used to exercise the sorted path. -/
def qsC5 : QuerySet := { qsBase with only_fields := some ["a", "b"], order_fields := some ["b"] }

/-- A queryset on the shortcut path: identity fields only, no ordering. -/
def qsShort : QuerySet := { qsBase with only_fields := some ["item_id"] }

/-- Does the projection selected by `return_format` pass its arity check?
(`True` for the pass-through shape; for the mapping/tuple shapes at least
one requested field; for the scalar shape exactly one.) -/
def arityOk (qs : QuerySet) : Bool :=
  match qs.return_format, qs.only_fields with
  | ReturnFormat.NONE, _ => true
  | ReturnFormat.VALUES, some (_ :: _) => true
  | ReturnFormat.VALUES_LIST, some (_ :: _) => true
  | ReturnFormat.FLAT, some [_] => true
  | _, _ => false

/-- The three-way outcome of `get` as a function of the materialized
result list (spec side of C7: NotFound on zero, the element on one,
AmbiguousResult on more). -/
def getOneSpec (outs : List Out) : Except String Out :=
  match outs with
  | [] => Except.error "DoesNotExist"
  | [x] => Except.ok x
  | _ :: _ :: _ => Except.error "MultipleObjectsReturned"

/-- Decidable equality for `Except`, so that concrete runs can be settled
by `decide`. -/
instance instDecEqExcept {e a : Type} [DecidableEq e] [DecidableEq a] :
    DecidableEq (Except e a) := fun
  | Except.error x, Except.error y =>
      if h : x = y then Decidable.isTrue (by rw [h])
      else Decidable.isFalse (fun hc => h (Except.error.inj hc))
  | Except.error _, Except.ok _ => Decidable.isFalse (fun hc => Except.noConfusion hc)
  | Except.ok _, Except.error _ => Decidable.isFalse (fun hc => Except.noConfusion hc)
  | Except.ok x, Except.ok y =>
      if h : x = y then Decidable.isTrue (by rw [h])
      else Decidable.isFalse (fun hc => h (Except.ok.inj hc))

/-- The term `qsBase.values_list([])` (no `flat`): tuple shape, zero fields. -/
def qsVL0 : QuerySet :=
  { qsBase with only_fields := some [], return_format := ReturnFormat.VALUES_LIST }

/-- A scalar-shaped queryset with two requested fields. -/
def qsF2 : QuerySet :=
  { qsBase with only_fields := some ["a", "b"], return_format := ReturnFormat.FLAT }

/-- The full-object output for the first item of `fldA`. -/
def outSubj5 : Out :=
  Out.item (Elem.obj
    ⟨some 1, some 10, [("a", some 1), ("b", some 1), ("subject", some 5)]⟩)

/-- The full-object iteration output of `qsBase`. -/
def lBase : List Out :=
  [outSubj5,
   Out.item (Elem.obj
     ⟨some 2, some 20, [("a", some 1), ("b", some 2), ("subject", some 6)]⟩)]

/-- Two concrete elements with distinct `b` values, out of order. -/
def eW1 : Elem := Elem.obj { item_id := some 1, changekey := some 10, attrs := [("b", some 2)] }

/-- Second concrete element for the sorting witness. -/
def eW2 : Elem := Elem.obj { item_id := some 2, changekey := some 20, attrs := [("b", some 1)] }

/-- A concrete unsorted sequence. -/
def xsW : List Elem := [eW1, eW2]

/-! ### Generic facts about the stable insertion sort -/

theorem insertS_perm {α : Type} (le : α → α → Bool) (a : α) (l : List α) :
    (insertS le a l).Perm (a :: l) := by
  induction l with
  | nil => exact List.Perm.refl _
  | cons b bs ih =>
    simp only [insertS]
    by_cases h : le a b = true
    · simp [h]
    · simp only [h, if_false]
      exact (List.Perm.cons b ih).trans (List.Perm.swap a b bs)

theorem stableSort_perm {α : Type} (le : α → α → Bool) (l : List α) :
    (stableSort le l).Perm l := by
  induction l with
  | nil => exact List.Perm.refl _
  | cons x xs ih =>
    simp only [stableSort]
    exact (insertS_perm le x (stableSort le xs)).trans (List.Perm.cons x ih)

theorem mem_stableSort {α : Type} (le : α → α → Bool) {x : α} {l : List α} :
    x ∈ stableSort le l ↔ x ∈ l :=
  (stableSort_perm le l).mem_iff

/-- Inserting into a list that is pairwise-ordered by the combined relation
"strictly `le`-below, or `le`-tied and `S`-related" keeps it so, provided
the inserted element is `S`-related to everything present. -/
theorem pairwise_insertS {α : Type} (le S : α → α → Bool)
    (htot : ∀ a b, le a b = true ∨ le b a = true)
    (htrans : ∀ a b c, le a b = true → le b c = true → le a c = true)
    (a : α) (L : List α)
    (h1 : L.Pairwise (fun x y => (le x y && (!(le y x) || S x y)) = true))
    (h2 : ∀ y ∈ L, S a y = true) :
    (insertS le a L).Pairwise (fun x y => (le x y && (!(le y x) || S x y)) = true) := by
  induction L with
  | nil => simp [insertS]
  | cons b bs ih =>
    rw [List.pairwise_cons] at h1
    obtain ⟨hb, hbs⟩ := h1
    simp only [insertS]
    by_cases h : le a b = true
    · simp only [h, if_true]
      refine List.Pairwise.cons ?_ (List.Pairwise.cons hb hbs)
      intro y hy
      have hSy : S a y = true := h2 y hy
      have hle : le a y = true := by
        rcases List.mem_cons.mp hy with rfl | hy'
        · exact h
        · have hq := hb y hy'
          rw [Bool.and_eq_true] at hq
          exact htrans a b y h hq.1
      simp [hle, hSy]
    · simp only [h, if_false]
      refine List.Pairwise.cons ?_
        (ih hbs (fun y hy => h2 y (List.mem_cons_of_mem b hy)))
      intro z hz
      have hz' : z = a ∨ z ∈ bs := by
        have := (insertS_perm le a bs).mem_iff.mp hz
        simpa using this
      rcases hz' with rfl | hz'
      · have hba : le b z = true := (htot z b).resolve_left h
        have hzb : le z b = false := by
          cases hq : le z b
          · rfl
          · exact absurd hq h
        simp [hba, hzb]
      · exact hb z hz'

/-- Stable sorting by `le` of a list pairwise-ordered by `S` produces a list
pairwise-ordered by "strictly `le`-below, or `le`-tied and `S`-related":
this is stability expressed at the `Pairwise` level. -/
theorem pairwise_stableSort {α : Type} (le S : α → α → Bool)
    (htot : ∀ a b, le a b = true ∨ le b a = true)
    (htrans : ∀ a b c, le a b = true → le b c = true → le a c = true)
    (l : List α) (hS : l.Pairwise (fun x y => S x y = true)) :
    (stableSort le l).Pairwise (fun x y => (le x y && (!(le y x) || S x y)) = true) := by
  induction l with
  | nil => simp [stableSort]
  | cons x xs ih =>
    rw [List.pairwise_cons] at hS
    refine pairwise_insertS le S htot htrans x _ (ih hS.2) ?_
    intro y hy
    exact hS.1 y ((stableSort_perm le xs).mem_iff.mp hy)

/-- Filtering by a predicate whose holders are all `le`-below the inserted
element's holders commutes with `insertS` in the expected way. -/
theorem filter_insertS {α : Type} (le : α → α → Bool) (p : α → Bool) (a : α)
    (M : List α)
    (hp : p a = true → ∀ y ∈ M, p y = true → le a y = true) :
    (insertS le a M).filter p = if p a then a :: M.filter p else M.filter p := by
  induction M with
  | nil =>
    simp only [insertS, List.filter]
    by_cases hpa : p a = true <;> simp [hpa]
  | cons b bs ih =>
    simp only [insertS]
    by_cases h : le a b = true
    · simp only [h, if_true]
      by_cases hpa : p a = true <;> simp [List.filter_cons, hpa]
    · have h' : le a b = false := by
        cases hq : le a b
        · rfl
        · exact absurd hq h
      rw [h']
      simp only [Bool.false_eq_true, if_false]
      rw [List.filter_cons,
        ih (fun hpa y hy hpy => hp hpa y (List.mem_cons_of_mem b hy) hpy)]
      by_cases hpb : p b = true
      · by_cases hpa : p a = true
        · exact absurd (hp hpa b (List.mem_cons_self b bs) hpb) h
        · simp [hpb, hpa, List.filter_cons]
      · by_cases hpa : p a = true
        · simp [hpb, hpa, List.filter_cons]
        · simp [hpb, hpa, List.filter_cons]

/-- Stability of `stableSort`, class-wise: a predicate whose holders are
mutually `le`-tied selects the same subsequence (same elements, same
original order) before and after sorting. -/
theorem filter_stableSort {α : Type} (le : α → α → Bool) (p : α → Bool)
    (l : List α)
    (htied : ∀ x ∈ l, ∀ y ∈ l, p x = true → p y = true → le x y = true) :
    (stableSort le l).filter p = l.filter p := by
  induction l with
  | nil => simp [stableSort]
  | cons x xs ih =>
    simp only [stableSort]
    rw [filter_insertS le p x (stableSort le xs)
      (fun hpa y hy hpy =>
        htied x (List.mem_cons_self x xs) y
          (List.mem_cons_of_mem x ((stableSort_perm le xs).mem_iff.mp hy)) hpa hpy)]
    rw [ih (fun u hu v hv hpu hpv =>
      htied u (List.mem_cons_of_mem x hu) v (List.mem_cons_of_mem x hv) hpu hpv)]
    by_cases hpa : p x = true <;> simp [List.filter_cons, hpa]

/-- The term `Pairwise` holds trivially for a relation that holds everywhere. -/
theorem pairwise_of_all {α : Type} {P : α → α → Prop} (h : ∀ a b, P a b) :
    ∀ l : List α, l.Pairwise P := by
  intro l
  induction l with
  | nil => exact List.Pairwise.nil
  | cons x xs ih => exact List.Pairwise.cons (fun y _ => h x y) ih

/-! ### The order-key comparators are total transitive preorders -/

theorem oleB_total (a b : Option Int) : oleB a b = true ∨ oleB b a = true := by
  cases a <;> cases b <;> simp [oleB] <;> omega

theorem oleB_trans (a b c : Option Int) (h1 : oleB a b = true) (h2 : oleB b c = true) :
    oleB a c = true := by
  cases a <;> cases b <;> cases c <;> simp_all [oleB] <;> omega

theorem keyLeB_total (f : String) (a b : Elem) : keyLeB f a b = true ∨ keyLeB f b a = true := by
  unfold keyLeB
  by_cases h : startsDash f = true <;> simp only [h] <;> simp <;>
    first
      | exact oleB_total (getattrE b (stripDash f)) (getattrE a (stripDash f))
      | exact oleB_total (getattrE a (stripDash f)) (getattrE b (stripDash f))

theorem keyLeB_trans (f : String) (a b c : Elem)
    (h1 : keyLeB f a b = true) (h2 : keyLeB f b c = true) : keyLeB f a c = true := by
  unfold keyLeB at *
  by_cases h : startsDash f = true <;> simp only [h] at * <;> simp at * <;>
    first
      | exact oleB_trans _ _ _ h2 h1
      | exact oleB_trans _ _ _ h1 h2

theorem lexLeB_trans (fs : List String) (a b c : Elem)
    (h1 : lexLeB fs a b = true) (h2 : lexLeB fs b c = true) : lexLeB fs a c = true := by
  induction fs with
  | nil => rfl
  | cons f rest ih =>
    simp only [lexLeB, Bool.and_eq_true, Bool.or_eq_true, Bool.not_eq_true'] at *
    obtain ⟨hab, hab2⟩ := h1
    obtain ⟨hbc, hbc2⟩ := h2
    refine ⟨keyLeB_trans f a b c hab hbc, ?_⟩
    by_cases hca : keyLeB f c a = true
    · right
      have hba : keyLeB f b a = true := keyLeB_trans f b c a hbc hca
      have hcb : keyLeB f c b = true := keyLeB_trans f c a b hca hab
      rcases hab2 with h | h
      · rw [hba] at h; cases h
      · rcases hbc2 with h' | h'
        · rw [hcb] at h'; cases h'
        · exact ih h h'
    · left
      cases hq : keyLeB f c a
      · rfl
      · exact absurd hq hca

theorem lexEqB_symm (fs : List String) (a b : Elem) (h : lexEqB fs a b = true) :
    lexEqB fs b a = true := by
  unfold lexEqB at *
  rw [Bool.and_eq_true] at *
  exact ⟨h.2, h.1⟩

theorem lexEqB_trans (fs : List String) (a b c : Elem)
    (h1 : lexEqB fs a b = true) (h2 : lexEqB fs b c = true) : lexEqB fs a c = true := by
  unfold lexEqB at *
  rw [Bool.and_eq_true] at *
  exact ⟨lexLeB_trans fs a b c h1.1 h2.1, lexLeB_trans fs c b a h2.2 h1.2⟩

/-! ### The multi-pass sort of `_query` realizes the lexicographic order -/

theorem multiPassSort_perm (fs : List String) (xs : List Elem) :
    (multiPassSort fs xs).Perm xs := by
  induction fs with
  | nil => exact List.Perm.refl _
  | cons f rest ih =>
    exact (stableSort_perm (keyLeB f) (multiPassSort rest xs)).trans ih

theorem multiPassSort_sorted (fs : List String) (xs : List Elem) :
    (multiPassSort fs xs).Pairwise (fun a b => lexLeB fs a b = true) := by
  induction fs with
  | nil => exact pairwise_of_all (fun a b => rfl) xs
  | cons f rest ih =>
    have h := pairwise_stableSort (keyLeB f) (lexLeB rest)
      (keyLeB_total f) (keyLeB_trans f) (multiPassSort rest xs) ih
    exact h.imp (fun hx => hx)

theorem multiPassSort_stable (fs : List String) (xs : List Elem) (p : Elem → Bool)
    (hp : ∀ x y, p x = true → p y = true → lexEqB fs x y = true) :
    (multiPassSort fs xs).filter p = xs.filter p := by
  induction fs generalizing xs with
  | nil => rfl
  | cons f rest ih =>
    have step : (stableSort (keyLeB f) (multiPassSort rest xs)).filter p =
        (multiPassSort rest xs).filter p := by
      refine filter_stableSort (keyLeB f) p (multiPassSort rest xs) ?_
      intro x _ y _ hpx hpy
      have := hp x y hpx hpy
      unfold lexEqB lexLeB at this
      rw [Bool.and_eq_true] at this
      exact (Bool.and_eq_true _ _ |>.mp this.1).1
    have hrest : ∀ x y, p x = true → p y = true → lexEqB rest x y = true := by
      intro x y hpx hpy
      have h := hp x y hpx hpy
      unfold lexEqB lexLeB at h
      rw [Bool.and_eq_true] at h
      obtain ⟨hxy, hyx⟩ := h
      rw [Bool.and_eq_true] at hxy hyx
      obtain ⟨hx1, hx2⟩ := hxy
      obtain ⟨hy1, hy2⟩ := hyx
      rw [Bool.or_eq_true] at hx2 hy2
      unfold lexEqB
      rw [Bool.and_eq_true]
      constructor
      · rcases hx2 with h' | h'
        · rw [Bool.not_eq_true'] at h'
          rw [h'] at hy1; cases hy1
        · exact h'
      · rcases hy2 with h' | h'
        · rw [Bool.not_eq_true'] at h'
          rw [h'] at hx1; cases hx1
        · exact h'
    exact step.trans (ih xs hrest)

/-! ### Structural facts shared by several claims -/

/-- The term `fillCache` preserves all specification state and always leaves a filled
cache. -/
theorem fillCache_spec (qs : QuerySet) :
    (fillCache qs).1.only_fields = qs.only_fields ∧
    (fillCache qs).1.order_fields = qs.order_fields ∧
    (fillCache qs).1.return_format = qs.return_format ∧
    (fillCache qs).1.folder = qs.folder ∧
    (fillCache qs).1.q = qs.q ∧
    (fillCache qs).1.cache.isSome = true := by
  rcases hc : qs.cache with _ | c
  · rcases hq : qs.q with _ | q <;> simp [fillCache, hc, hq]
  · simp [fillCache, hc]

/-- A queryset whose cache is already filled is left untouched by
`fillCache`, and no further remote call is made. -/
theorem fillCache_idem (qs : QuerySet) :
    fillCache ((fillCache qs).1) = ((fillCache qs).1, []) := by
  rcases hc : qs.cache with _ | c
  · rcases hq : qs.q with _ | q <;> simp [fillCache, hc, hq]
  · simp [fillCache, hc]

/-- The term `_check_fields` rejects a field list containing any unknown name. -/
theorem check_fields_isErr (fo : Folder) (flds : List String)
    (h : ∃ f ∈ flds, fieldOk fo f = false) : isErr (check_fields fo flds) = true := by
  induction flds with
  | nil => obtain ⟨f, hf, _⟩ := h; cases hf
  | cons g rest ih =>
    unfold check_fields
    by_cases hg : fieldOk fo g = true
    · rw [if_pos hg]
      obtain ⟨f, hf, hbad⟩ := h
      rcases List.mem_cons.mp hf with rfl | hf'
      · rw [hg] at hbad; cases hbad
      · exact ih ⟨f, hf', hbad⟩
    · rw [if_neg hg]; rfl

/-- The term `as_values` raises its arity error whenever zero fields were requested,
regardless of the cached contents. -/
theorem as_values_empty (qs : QuerySet) (h : qs.only_fields = some []) (c : List Elem) :
    as_values qs c = Except.error "values() requires at least one field name" := by
  unfold as_values
  rw [h]
  rfl

/-- The term `as_values_list` raises its arity error whenever zero fields were
requested. -/
theorem as_values_list_empty (qs : QuerySet) (h : qs.only_fields = some []) (c : List Elem) :
    as_values_list qs c = Except.error "values_list() requires at least one field name" := by
  unfold as_values_list
  rw [h]
  rfl

/-- The term `as_flat_values_list` raises its arity error whenever the requested
field count differs from one. -/
theorem as_flat_badlen (qs : QuerySet) (l : List String) (h : qs.only_fields = some l)
    (hlen : l.length ≠ 1) (c : List Elem) :
    as_flat_values_list qs c = Except.error "flat=True requires exactly one field name" := by
  unfold as_flat_values_list
  rw [h]
  exact if_pos hlen

/-- The term `project` dispatches to `as_values` for the mapping shape. -/
theorem project_values (qs : QuerySet) (h : qs.return_format = ReturnFormat.VALUES)
    (c : List Elem) : project qs c = as_values qs c := by
  unfold project
  rw [h]

/-- The term `project` dispatches to `as_values_list` for the tuple shape. -/
theorem project_values_list (qs : QuerySet) (h : qs.return_format = ReturnFormat.VALUES_LIST)
    (c : List Elem) : project qs c = as_values_list qs c := by
  unfold project
  rw [h]

/-- The term `project` dispatches to `as_flat_values_list` for the scalar shape. -/
theorem project_flat (qs : QuerySet) (h : qs.return_format = ReturnFormat.FLAT)
    (c : List Elem) : project qs c = as_flat_values_list qs c := by
  unfold project
  rw [h]

/-- The term `project` passes the cache through unchanged for the full-object shape. -/
theorem project_none_fmt (qs : QuerySet) (h : qs.return_format = ReturnFormat.NONE)
    (c : List Elem) : project qs c = Except.ok (c.map Out.item) := by
  unfold project
  rw [h]

/-- Field-name validation failure propagates to an error result of
`only`/`values`/`values_list`/`order_by`. -/
theorem only_isErr (qs : QuerySet) (flds : List String)
    (h : isErr (check_fields qs.folder flds) = true) :
    isErr (QuerySet.only qs flds) = true := by
  unfold QuerySet.only
  rcases hck : check_fields qs.folder flds with e | u
  · rfl
  · rw [hck] at h
    simp [isErr] at h

/-- As `only_isErr`, for `values`. -/
theorem values_isErr (qs : QuerySet) (flds : List String)
    (h : isErr (check_fields qs.folder flds) = true) :
    isErr (QuerySet.values qs flds) = true := by
  unfold QuerySet.values
  rcases hck : check_fields qs.folder flds with e | u
  · rfl
  · rw [hck] at h
    simp [isErr] at h

/-- As `only_isErr`, for `values_list`. -/
theorem values_list_isErr (qs : QuerySet) (b : Bool) (flds : List String)
    (h : isErr (check_fields qs.folder flds) = true) :
    isErr (QuerySet.values_list qs b flds) = true := by
  unfold QuerySet.values_list
  rcases hck : check_fields qs.folder flds with e | u
  · rfl
  · rw [hck] at h
    simp [isErr] at h

/-- As `only_isErr`, for `order_by` (which validates the stripped names). -/
theorem order_by_isErr (qs : QuerySet) (flds : List String)
    (h : isErr (check_fields qs.folder (flds.map stripDash)) = true) :
    isErr (QuerySet.order_by qs flds) = true := by
  unfold QuerySet.order_by
  rcases hck : check_fields qs.folder (flds.map stripDash) with e | u
  · rfl
  · rw [hck] at h
    simp [isErr] at h

/-- Claim **C1** (corrected).  Unknown-field-name errors in
`only`/`order_by`/`values`/`values_list` and the reversing-without-ordering
error are raised synchronously by the chaining call itself, but the
shape-specific arity violations (zero fields for the mapping/tuple
projections, not-exactly-one field for the scalar projection) are raised
only when the queryset is consumed, after the cache has been filled (and
with it any remote call made). -/
theorem c1_validation_timing (qs : QuerySet) (flds : List String) (b : Bool) :
    ((∃ f ∈ flds, fieldOk qs.folder f = false) →
        isErr (QuerySet.only qs flds) = true ∧
        isErr (QuerySet.values qs flds) = true ∧
        isErr (QuerySet.values_list qs b flds) = true) ∧
    ((∃ f ∈ flds, fieldOk qs.folder (stripDash f) = false) →
        isErr (QuerySet.order_by qs flds) = true) ∧
    (orderTruthy qs = false → isErr (QuerySet.reverse qs) = true) ∧
    (qs.return_format = ReturnFormat.VALUES → qs.only_fields = some [] →
        (iterRun qs).1 = Except.error "values() requires at least one field name" ∧
        (iterRun qs).2.2.cache.isSome = true) ∧
    (qs.return_format = ReturnFormat.VALUES_LIST → qs.only_fields = some [] →
        (iterRun qs).1 = Except.error "values_list() requires at least one field name" ∧
        (iterRun qs).2.2.cache.isSome = true) ∧
    (qs.return_format = ReturnFormat.FLAT → ∀ l, qs.only_fields = some l → l.length ≠ 1 →
        (iterRun qs).1 = Except.error "flat=True requires exactly one field name" ∧
        (iterRun qs).2.2.cache.isSome = true) := by
  obtain ⟨hof, hord, hrf, hfo, hq, hcs⟩ := fillCache_spec qs
  refine ⟨?_, ?_, ?_, ?_, ?_, ?_⟩
  · intro h
    have hck := check_fields_isErr qs.folder flds h
    exact ⟨only_isErr qs flds hck, values_isErr qs flds hck,
      values_list_isErr qs b flds hck⟩
  · intro h
    obtain ⟨f, hf, hbad⟩ := h
    exact order_by_isErr qs flds
      (check_fields_isErr qs.folder (flds.map stripDash)
        ⟨stripDash f, List.mem_map_of_mem stripDash hf, hbad⟩)
  · intro h
    unfold QuerySet.reverse
    rw [h]
    rfl
  · intro h1 h2
    refine ⟨?_, hcs⟩
    show project (fillCache qs).1 ((fillCache qs).1.cache.getD []) = _
    rw [project_values (fillCache qs).1 (by rw [hrf, h1]) _,
      as_values_empty (fillCache qs).1 (by rw [hof, h2]) _]
  · intro h1 h2
    refine ⟨?_, hcs⟩
    show project (fillCache qs).1 ((fillCache qs).1.cache.getD []) = _
    rw [project_values_list (fillCache qs).1 (by rw [hrf, h1]) _,
      as_values_list_empty (fillCache qs).1 (by rw [hof, h2]) _]
  · intro h1 l h2 hlen
    refine ⟨?_, hcs⟩
    show project (fillCache qs).1 ((fillCache qs).1.cache.getD []) = _
    rw [project_flat (fillCache qs).1 (by rw [hrf, h1]) _,
      as_flat_badlen (fillCache qs).1 l (by rw [hof, h2]) hlen _]

/-- Claim **C1** counterexample.  `values()` with zero fields is accepted by the
chaining call (no error raised at chaining time); consuming the resulting
queryset first issues a remote listing call, fills the cache, and only then
raises the arity error — refuting "every validation error is raised
synchronously by the chaining call itself, before any remote call". -/
theorem c1_counterexample :
    QuerySet.values qsBase [] = Except.ok qsV0 ∧
    (iterRun qsV0).1 = Except.error "values() requires at least one field name" ∧
    (iterRun qsV0).2.1 = [Call.find_items Q.empty Option.none] := by
  refine ⟨by decide, by decide, by decide⟩

/-- Claim **C1** witness: the amended theorem applied at concrete inputs. -/
theorem c1_witness :
    isErr (QuerySet.only qsBase ["bogus"]) = true ∧
    isErr (QuerySet.order_by qsBase ["-bogus"]) = true ∧
    isErr (QuerySet.reverse qsBase) = true ∧
    (iterRun qsV0).1 = Except.error "values() requires at least one field name" ∧
    (iterRun qsVL0).1 = Except.error "values_list() requires at least one field name" ∧
    (iterRun qsF2).1 = Except.error "flat=True requires exactly one field name" := by
  have h1 := c1_validation_timing qsBase ["bogus"] true
  have h2 := c1_validation_timing qsBase ["-bogus"] true
  have h3 := c1_validation_timing qsV0 [] true
  have h4 := c1_validation_timing qsVL0 [] true
  have h5 := c1_validation_timing qsF2 [] true
  exact ⟨(h1.1 ⟨"bogus", by decide, by decide⟩).1,
    h2.2.1 ⟨"-bogus", by decide, by decide⟩,
    h1.2.2.1 rfl,
    (h3.2.2.2.1 rfl rfl).1,
    (h4.2.2.2.2.1 rfl rfl).1,
    (h5.2.2.2.2.2 rfl ["a", "b"] rfl (by decide)).1⟩

/-- Claim **C2** (code bug).  `order_by("-b")` with `b` outside `only("a")`:
the planner computes `extra_order_fields` without stripping the descending
marker, so the single listing call requests the nonexistent field `"-b"`
instead of `"b"` (third conjunct: the trace).  The sort key `b` is therefore
unfetched (`None` on every element), the sort passes leave the retrieval
order unchanged, and the yielded sequence is `item 1, item 2` — not the
descending-`b` order `item 2, item 1` demanded by the claim (the remote
`b` values are `1` then `2`, second conjunct). -/
theorem c2_descending_extra_order_field :
    (QuerySet.only qsBase ["a"] = Except.ok qsOnlyA ∧
      QuerySet.order_by qsOnlyA ["-b"] = Except.ok qsC2) ∧
    fldA.items.map (fun i => i.getattr "b") = [some 1, some 2] ∧
    (iterRun qsC2).2.1 = [Call.find_items Q.empty (some ["a", "-b"])] ∧
    (iterRun qsC2).1 = Except.ok
      [Out.item (Elem.obj ⟨some 1, some 10, [("a", some 1), ("-b", Option.none)]⟩),
       Out.item (Elem.obj ⟨some 2, some 20, [("a", some 1), ("-b", Option.none)]⟩)] := by
  refine ⟨⟨by decide, by decide⟩, by decide, by decide, by decide⟩

/-- Claim **C3** counterexample.  On a mapping-shaped queryset, iteration yields
the projected dicts but integer indexing returns the raw cached object, not
the projected element at that position — refuting "indexing a queryset
whose shape is Mapping, Tuple or Scalar returns the projected element". -/
theorem c3_counterexample :
    (iterRun qsV).1 = Except.ok [Out.map [("subject", some 5)], Out.map [("subject", some 6)]] ∧
    (getItemRun qsV 0).1 = some (Elem.obj ⟨some 1, some 10, [("subject", some 5)]⟩) ∧
    Out.item (Elem.obj ⟨some 1, some 10, [("subject", some 5)]⟩) ≠
      Out.map [("subject", some 5)] := by
  refine ⟨by decide, by decide, by decide⟩

/-- Claim **C3** (corrected).  Indexing, slicing and length are served from the
one-time-filled cache (the cache is filled on first consumption and a
second consumption performs no further remote call), but *without* the
output projection: they work on the raw cached elements.  Only for the
full-object shape does indexing agree with iteration. -/
theorem c3_cache_indexing (qs : QuerySet) (k a b : Nat) :
    (getItemRun qs k).1 = ((fillCache qs).1.cache.getD [])[k]? ∧
    (getItemRun qs k).2.1 = (fillCache qs).2 ∧
    (lenRun qs).1 = ((fillCache qs).1.cache.getD []).length ∧
    (getSliceRun qs a b).1 = (((fillCache qs).1.cache.getD []).drop a).take (b - a) ∧
    fillCache ((fillCache qs).1) = ((fillCache qs).1, []) ∧
    (fillCache qs).1.cache.isSome = true ∧
    (qs.return_format = ReturnFormat.NONE → ∀ l, (iterRun qs).1 = Except.ok l →
      ((getItemRun qs k).1.map Out.item) = l[k]?) := by
  obtain ⟨hof, hord, hrf, hfo, hq, hcs⟩ := fillCache_spec qs
  refine ⟨rfl, rfl, rfl, rfl, fillCache_idem qs, hcs, ?_⟩
  intro h1 l hl
  have hp : (iterRun qs).1 =
      Except.ok (((fillCache qs).1.cache.getD []).map Out.item) :=
    project_none_fmt (fillCache qs).1 (by rw [hrf, h1]) _
  rw [hp] at hl
  have hl' : ((fillCache qs).1.cache.getD []).map Out.item = l := Except.ok.inj hl
  rw [← hl']
  show (((fillCache qs).1.cache.getD [])[k]?).map Out.item = _
  rw [List.getElem?_map]

/-- Claim **C3** witness: the amended theorem applied at concrete inputs. -/
theorem c3_witness :
    fillCache ((fillCache qsBase).1) = ((fillCache qsBase).1, []) ∧
    ((getItemRun qsBase 0).1.map Out.item) = lBase[0]? := by
  have h := c3_cache_indexing qsBase 0 0 1
  exact ⟨h.2.2.2.2.1, h.2.2.2.2.2.2 rfl lBase (by decide)⟩

/-- Claim **C4** (code bug).  `count()` builds its throwaway copy with
`only_fields` forced empty but *keeps* `return_format`; on any
mapping/tuple/scalar-shaped queryset the subsequent `list(...)` hits the
zero-field arity check and raises, instead of returning the match count
(here 2, as the full-object copy shows).  `exists()` inherits the error. -/
theorem c4_count_crashes_on_projected_shapes :
    QuerySet.values qsBase ["subject"] = Except.ok qsV ∧
    (countRun qsV).1 = Except.error "values() requires at least one field name" ∧
    (existsRun qsV).1 = Except.error "values() requires at least one field name" ∧
    (iterRun (QuerySet.all qsV)).1 =
      Except.ok [Out.map [("subject", some 5)], Out.map [("subject", some 6)]] ∧
    (countRun qsBase).1 = Except.ok 2 := by
  refine ⟨by decide, by decide, by decide, by decide, by decide⟩

/-- Claim **C5** (confirmed).  The multi-pass sort of `_query` (one stable pass
per key, keys processed in reverse declaration order, each pass descending
iff the key carries the marker) yields exactly the "primary key first, ties
broken by the next key, remaining ties in original retrieval order"
ordering: the result is a permutation of the input (1), pairwise ordered by
the lexicographic multi-key comparison (2), and every class of elements
tied under all keys appears in its original relative order (3).  On a
queryset whose `order_fields` is set, `_query` post-processes the retrieved
sequence with exactly this sort, followed — if the `reversed` flag is set —
by a reversal of the entire sequence, and then the nulling of sort-only
fields (4). -/
theorem c5_multi_key_sort (fs : List String) (xs : List Elem) (qs : QuerySet) (q : Q) :
    (multiPassSort fs xs).Perm xs ∧
    List.Pairwise (fun a b => lexLeB fs a b = true) (multiPassSort fs xs) ∧
    (∀ a, (multiPassSort fs xs).filter (lexEqB fs a) = xs.filter (lexEqB fs a)) ∧
    (qs.order_fields = some fs → orderTruthy qs = true →
      (queryT qs q).1 =
        (if !(extraOrderFields qs).isEmpty then
          (if qs.reversed then (multiPassSort fs (retrieveT qs q).1).reverse
           else multiPassSort fs (retrieveT qs q).1).map (cleanElem (extraOrderFields qs))
         else
          (if qs.reversed then (multiPassSort fs (retrieveT qs q).1).reverse
           else multiPassSort fs (retrieveT qs q).1))) := by
  refine ⟨multiPassSort_perm fs xs, multiPassSort_sorted fs xs, ?_, ?_⟩
  · intro a
    exact multiPassSort_stable fs xs (lexEqB fs a)
      (fun x y hx hy => lexEqB_trans fs x a y (lexEqB_symm fs a x hx) hy)
  · intro hord htr
    have hl : orderL qs = fs := by
      unfold orderL
      rw [hord]
      rfl
    unfold queryT sortStage
    rw [htr, hl]
    simp

/-- Claim **C5**: witness: the theorem applied at a concrete ordered queryset and
a concrete unsorted sequence. -/
theorem c5_witness :
    (multiPassSort ["b"] xsW).Perm xsW ∧
    List.Pairwise (fun a b => lexLeB ["b"] a b = true) (multiPassSort ["b"] xsW) ∧
    (multiPassSort ["b"] xsW).filter (lexEqB ["b"] eW1) = xsW.filter (lexEqB ["b"] eW1) ∧
    (queryT qsC5 Q.empty).1 =
      (if !(extraOrderFields qsC5).isEmpty then
        (if qsC5.reversed then (multiPassSort ["b"] (retrieveT qsC5 Q.empty).1).reverse
         else multiPassSort ["b"] (retrieveT qsC5 Q.empty).1).map
          (cleanElem (extraOrderFields qsC5))
       else
        (if qsC5.reversed then (multiPassSort ["b"] (retrieveT qsC5 Q.empty).1).reverse
         else multiPassSort ["b"] (retrieveT qsC5 Q.empty).1)) := by
  have h := c5_multi_key_sort ["b"] xsW qsC5 Q.empty
  exact ⟨h.1, h.2.1, h.2.2.1 eW1, h.2.2.2 rfl rfl⟩

/-- Claim **C6** (confirmed).  When the computed additional-field set is empty and
no ordering is requested, `_query` issues exactly one listing call with no
additional fields and returns its raw identity-pair sequence unchanged:
no fetch-by-id call, no sorting, no field nulling, no hydration. -/
theorem c6_shortcut (qs : QuerySet) (q : Q)
    (hAF : afBase qs = []) (hOrd : qs.order_fields = Option.none) :
    queryT qs q = ((qs.folder.items.filter (fun i => q.eval i)).map
        (fun i => Elem.pair i.item_id i.changekey),
      [Call.find_items q Option.none]) := by
  have hOT : orderTruthy qs = false := by
    unfold orderTruthy
    rw [hOrd]
  have hExtra : extraOrderFields qs = [] := by
    unfold extraOrderFields
    rw [hOT]
    rfl
  have hFin : afFinal qs = [] := by
    unfold afFinal
    rw [hAF, hExtra]
    rfl
  unfold queryT
  rw [hFin, hOT]
  simp [Folder.find_items]

/-- Claim **C6** witness: the theorem applied to a queryset restricted to the
identity field `item_id`. -/
theorem c6_witness :
    afBase qsShort = [] ∧ qsShort.order_fields = Option.none ∧
    queryT qsShort Q.empty =
      ([Elem.pair (some 1) (some 10), Elem.pair (some 2) (some 20)],
        [Call.find_items Q.empty Option.none]) := by
  refine ⟨by decide, rfl, ?_⟩
  have h := c6_shortcut qsShort Q.empty (by decide) rfl
  rw [h]
  decide

/-- Claim **C7** (confirmed).  `get(conditions)` applies the filter, fully
materializes the filtered queryset, and then raises `DoesNotExist` on zero
results, `MultipleObjectsReturned` on two or more, and returns the single
element on exactly one. -/
theorem c7_get_semantics (qs : QuerySet) (qopt : Option Q) (outs : List Out)
    (h : (iterRun (QuerySet.filter qs qopt)).1 = Except.ok outs) :
    (getRun qs qopt).1 = getOneSpec outs := by
  rcases hE : iterRun (QuerySet.filter qs qopt) with ⟨res, rest⟩
  rw [hE] at h
  have hres : res = Except.ok outs := h
  unfold getRun
  rw [hE, hres]
  rcases outs with _ | ⟨x, _ | ⟨y, t⟩⟩ <;> rfl

/-- Claim **C7** witness: the theorem applied to a single-match filter. -/
theorem c7_witness :
    (iterRun (QuerySet.filter qsBase (some (Q.cond "subject" (some 5))))).1 =
      Except.ok [outSubj5] ∧
    (getRun qsBase (some (Q.cond "subject" (some 5)))).1 = Except.ok outSubj5 := by
  refine ⟨by decide, ?_⟩
  exact c7_get_semantics qsBase (some (Q.cond "subject" (some 5))) [outSubj5] (by decide)

/-- On an empty cache, every projection that passes its arity check yields
the empty sequence. -/
theorem project_nil_ok (qs : QuerySet) (h : arityOk qs = true) :
    project qs [] = Except.ok [] := by
  unfold arityOk at h
  rcases hrf : qs.return_format <;> rw [hrf] at h
  · rw [project_none_fmt qs hrf]
    rfl
  · rcases hof : qs.only_fields with _ | ⟨_ | ⟨f, rest⟩⟩ <;> rw [hof] at h
    · exact absurd h (by simp)
    · exact absurd h (by simp)
    · rw [project_values qs hrf]
      unfold as_values
      rw [hof]
      show as_values_flds qs (f :: rest) [] = Except.ok []
      unfold as_values_flds
      rw [if_neg (show ¬((f :: rest).isEmpty = true) by simp)]
      dsimp only
      repeat' split
      all_goals rfl
  · rcases hof : qs.only_fields with _ | ⟨_ | ⟨f, rest⟩⟩ <;> rw [hof] at h
    · exact absurd h (by simp)
    · exact absurd h (by simp)
    · rw [project_values_list qs hrf]
      unfold as_values_list
      rw [hof]
      show as_values_list_flds qs (f :: rest) [] = Except.ok []
      unfold as_values_list_flds
      rw [if_neg (show ¬((f :: rest).isEmpty = true) by simp)]
      dsimp only
      repeat' split
      all_goals rfl
  · rcases hof : qs.only_fields with _ | ⟨_ | ⟨f, _ | ⟨g, rest⟩⟩⟩ <;> rw [hof] at h
    · exact absurd h (by simp)
    · exact absurd h (by simp)
    · rw [project_flat qs hrf]
      unfold as_flat_values_list
      rw [hof]
      show as_flat_flds qs [f] [] = Except.ok []
      unfold as_flat_flds
      rw [if_neg (show ¬(([f] : List String).length ≠ 1) by simp)]
      by_cases h1 : f = "item_id"
      · subst h1
        dsimp only
        repeat' split
        all_goals first | rfl | simp_all [travE]
      · by_cases h2 : f = "changekey"
        · subst h2
          dsimp only
          repeat' split
          all_goals first | rfl | simp_all [travE]
        · have e1 : (f == "item_id") = false := beq_eq_false_iff_ne.mpr h1
          have e2 : (f == "changekey") = false := beq_eq_false_iff_ne.mpr h2
          simp [e1, e2, travE]
    · exact absurd h (by simp)

/-- On an empty cache, a projection whose arity check fails raises immediately. -/
theorem project_nil_err (qs : QuerySet) (h : arityOk qs = false) :
    isErr (project qs []) = true := by
  unfold arityOk at h
  rcases hrf : qs.return_format <;> rw [hrf] at h
  · exact absurd h (by simp)
  · rcases hof : qs.only_fields with _ | ⟨_ | ⟨f, rest⟩⟩ <;> rw [hof] at h
    · rw [project_values qs hrf]
      unfold as_values
      rw [hof]
      rfl
    · rw [project_values qs hrf, as_values_empty qs hof]
      rfl
    · exact absurd h (by simp)
  · rcases hof : qs.only_fields with _ | ⟨_ | ⟨f, rest⟩⟩ <;> rw [hof] at h
    · rw [project_values_list qs hrf]
      unfold as_values_list
      rw [hof]
      rfl
    · rw [project_values_list qs hrf, as_values_list_empty qs hof]
      rfl
    · exact absurd h (by simp)
  · rcases hof : qs.only_fields with _ | ⟨_ | ⟨f, _ | ⟨g, rest⟩⟩⟩ <;> rw [hof] at h
    · rw [project_flat qs hrf]
      unfold as_flat_values_list
      rw [hof]
      rfl
    · rw [project_flat qs hrf, as_flat_badlen qs [] hof (by simp)]
      rfl
    · exact absurd h (by simp)
    · rw [project_flat qs hrf, as_flat_badlen qs (f :: g :: rest) hof (by simp)]
      rfl

/-- Claim **C8** counterexample.  A mapping-shaped queryset with zero requested
fields, after `none()`: consumption raises the arity error rather than
yielding the empty sequence — refuting "consuming it yields the empty
sequence" as stated for *every* queryset (the zero-remote-calls part does
hold: the trace is empty). -/
theorem c8_counterexample :
    (iterRun (QuerySet.none qsV0)).1 =
      Except.error "values() requires at least one field name" ∧
    (iterRun (QuerySet.none qsV0)).2.1 = [] := by
  refine ⟨by decide, by decide⟩

/-- Claim **C8** (corrected).  Consuming a queryset on which `none()` was called
performs zero remote calls in every mode (iteration, length, indexing);
length is `0` and every integer index is out of range; iteration yields the
empty sequence whenever the output shape's arity validation passes, and
raises that arity error (still with zero remote calls) otherwise. -/
theorem c8_none_consumption (qs : QuerySet) :
    (iterRun (QuerySet.none qs)).2.1 = [] ∧
    (lenRun (QuerySet.none qs)).1 = 0 ∧
    (lenRun (QuerySet.none qs)).2.1 = [] ∧
    (∀ k, (getItemRun (QuerySet.none qs) k).1 = Option.none) ∧
    (∀ k, (getItemRun (QuerySet.none qs) k).2.1 = []) ∧
    (arityOk (QuerySet.none qs) = true → (iterRun (QuerySet.none qs)).1 = Except.ok []) ∧
    (arityOk (QuerySet.none qs) = false → isErr (iterRun (QuerySet.none qs)).1 = true) := by
  refine ⟨rfl, rfl, rfl, ?_, ?_, ?_, ?_⟩
  · intro k
    show (([] : List Elem))[k]? = Option.none
    simp
  · intro k
    rfl
  · intro hA
    exact project_nil_ok (fillCache (QuerySet.none qs)).1 hA
  · intro hA
    exact project_nil_err (fillCache (QuerySet.none qs)).1 hA

/-- Claim **C8** witness: the amended theorem applied at concrete inputs (a
full-object queryset, and the degenerate zero-field mapping queryset for
the arity-failure branch). -/
theorem c8_witness :
    (iterRun (QuerySet.none qsBase)).2.1 = [] ∧
    (lenRun (QuerySet.none qsBase)).1 = 0 ∧
    (getItemRun (QuerySet.none qsBase) 5).1 = Option.none ∧
    (iterRun (QuerySet.none qsBase)).1 = Except.ok [] ∧
    isErr (iterRun (QuerySet.none qsV0)).1 = true := by
  have h := c8_none_consumption qsBase
  have h2 := c8_none_consumption qsV0
  exact ⟨h.1, h.2.1, h.2.2.2.1 5, h.2.2.2.2.2.1 rfl, h2.2.2.2.2.2.2 rfl⟩

/-- Claim **C9** (confirmed).  Every chaining call works on a copy: the result's
cache starts empty regardless of whether the source's cache was filled, the
result is entirely independent of the source's cache (so consuming the
source beforehand changes nothing), and `filter` preserves all other
specification state of the source (which, being a value, is itself left
untouched — the embedding is pure, mirroring `copy()`'s deep-copy of the
predicate and the copy-on-write discipline of the chaining surface). -/
theorem c9_copy_independence (qs : QuerySet) (c : Option (List Elem)) (qopt : Option Q)
    (qa : Q) (flds : List String) (b : Bool) :
    (QuerySet.filter { qs with cache := c } qopt = QuerySet.filter qs qopt) ∧
    (QuerySet.filter qs qopt).cache = Option.none ∧
    (QuerySet.filter qs qopt).folder = qs.folder ∧
    (QuerySet.filter qs qopt).only_fields = qs.only_fields ∧
    (QuerySet.filter qs qopt).order_fields = qs.order_fields ∧
    (QuerySet.filter qs qopt).reversed = qs.reversed ∧
    (QuerySet.filter qs qopt).return_format = qs.return_format ∧
    (QuerySet.exclude { qs with cache := c } qa = QuerySet.exclude qs qa) ∧
    (QuerySet.exclude qs qa).cache = Option.none ∧
    (QuerySet.all { qs with cache := c } = QuerySet.all qs) ∧
    (QuerySet.all qs).cache = Option.none ∧
    (QuerySet.none { qs with cache := c } = QuerySet.none qs) ∧
    (QuerySet.none qs).cache = Option.none ∧
    (QuerySet.only { qs with cache := c } flds = QuerySet.only qs flds) ∧
    (∀ r, QuerySet.only qs flds = Except.ok r → r.cache = Option.none) ∧
    (QuerySet.order_by { qs with cache := c } flds = QuerySet.order_by qs flds) ∧
    (∀ r, QuerySet.order_by qs flds = Except.ok r → r.cache = Option.none) ∧
    (QuerySet.reverse { qs with cache := c } = QuerySet.reverse qs) ∧
    (∀ r, QuerySet.reverse qs = Except.ok r → r.cache = Option.none) ∧
    (QuerySet.values { qs with cache := c } flds = QuerySet.values qs flds) ∧
    (∀ r, QuerySet.values qs flds = Except.ok r → r.cache = Option.none) ∧
    (QuerySet.values_list { qs with cache := c } b flds = QuerySet.values_list qs b flds) ∧
    (∀ r, QuerySet.values_list qs b flds = Except.ok r → r.cache = Option.none) := by
  refine ⟨rfl, rfl, rfl, rfl, rfl, rfl, rfl, rfl, rfl, rfl, rfl, rfl, rfl, ?_, ?_, ?_, ?_,
    ?_, ?_, ?_, ?_, ?_, ?_⟩
  · unfold QuerySet.only
    rcases check_fields qs.folder flds with e | u <;> rfl
  · intro r hr
    unfold QuerySet.only at hr
    rcases hck : check_fields qs.folder flds with e | u <;> rw [hck] at hr
    · cases hr
    · have := Except.ok.inj hr
      rw [← this]
      rfl
  · unfold QuerySet.order_by
    rcases check_fields qs.folder (flds.map stripDash) with e | u <;> rfl
  · intro r hr
    unfold QuerySet.order_by at hr
    rcases hck : check_fields qs.folder (flds.map stripDash) with e | u <;> rw [hck] at hr
    · cases hr
    · have := Except.ok.inj hr
      rw [← this]
      rfl
  · unfold QuerySet.reverse
    have e : orderTruthy { qs with cache := c } = orderTruthy qs := rfl
    rw [e]
    rcases orderTruthy qs with _ | _ <;> rfl
  · intro r hr
    unfold QuerySet.reverse at hr
    rcases hot : orderTruthy qs with _ | _ <;> rw [hot] at hr
    · cases hr
    · have := Except.ok.inj hr
      rw [← this]
      rfl
  · unfold QuerySet.values
    rcases check_fields qs.folder flds with e | u <;> rfl
  · intro r hr
    unfold QuerySet.values at hr
    rcases hck : check_fields qs.folder flds with e | u <;> rw [hck] at hr
    · cases hr
    · have := Except.ok.inj hr
      rw [← this]
      rfl
  · unfold QuerySet.values_list
    rcases check_fields qs.folder flds with e | u <;> rfl
  · intro r hr
    unfold QuerySet.values_list at hr
    rcases hck : check_fields qs.folder flds with e | u <;> rw [hck] at hr
    · cases hr
    · have := Except.ok.inj hr
      rw [← this]
      rfl

/-- Claim **C9** witness: the theorem applied at concrete inputs, discharging
each `= Except.ok` hypothesis. -/
theorem c9_witness :
    (QuerySet.filter { qsBase with cache := some [] } (some Q.empty) =
      QuerySet.filter qsBase (some Q.empty)) ∧
    (QuerySet.filter qsBase (some Q.empty)).cache = Option.none ∧
    qsOnlyA.cache = Option.none ∧
    qsC2.cache = Option.none ∧
    ({ qsC2.copy with reversed := true } : QuerySet).cache = Option.none ∧
    qsV.cache = Option.none ∧
    ({ qsBase.copy with only_fields := some ["a"], return_format := ReturnFormat.FLAT } :
      QuerySet).cache = Option.none := by
  have h1 := c9_copy_independence qsBase (some []) (some Q.empty) Q.empty ["a"] true
  have h2 := c9_copy_independence qsOnlyA (some []) (some Q.empty) Q.empty ["-b"] true
  have h3 := c9_copy_independence qsC2 (some []) (some Q.empty) Q.empty ["subject"] true
  have h4 := c9_copy_independence qsBase (some []) (some Q.empty) Q.empty ["subject"] true
  have h5 := c9_copy_independence qsBase (some []) (some Q.empty) Q.empty ["a"] true
  obtain ⟨ha, hb, -, -, -, -, -, -, -, -, -, -, -, -, honly, -, -, -, -, -, -, -, -⟩ := h5
  refine ⟨ha, hb, honly qsOnlyA (by decide), ?_, ?_, ?_, ?_⟩
  · exact h2.2.2.2.2.2.2.2.2.2.2.2.2.2.2.2.2.1 qsC2 (by decide)
  · exact h3.2.2.2.2.2.2.2.2.2.2.2.2.2.2.2.2.2.2.1 { qsC2.copy with reversed := true }
      (by decide)
  · exact h4.2.2.2.2.2.2.2.2.2.2.2.2.2.2.2.2.2.2.2.2.1 qsV (by decide)
  · exact h1.2.2.2.2.2.2.2.2.2.2.2.2.2.2.2.2.2.2.2.2.2.2
      { qsBase.copy with only_fields := some ["a"], return_format := ReturnFormat.FLAT }
      (by decide)

/-- Claim **C10** (confirmed).  After `none()` (null-sentinel predicate), a
further `filter`/`exclude` *replaces* the sentinel with the newly built
predicate alone, so the chain is no longer guaranteed-empty: consuming the
concrete chain below invokes the planner (one listing call) and returns the
matching items. -/
theorem c10_filter_after_none (qs : QuerySet) (qx : Q) :
    (QuerySet.filter (QuerySet.none qs) (some qx)).q = some qx ∧
    (QuerySet.exclude (QuerySet.none qs) qx).q = some (Q.not qx) ∧
    (iterRun (QuerySet.filter (QuerySet.none qsBase) (some (Q.cond "a" (some 1))))).1 =
      Except.ok
        [Out.item (Elem.obj ⟨some 1, some 10,
          [("a", some 1), ("b", some 1), ("subject", some 5)]⟩),
         Out.item (Elem.obj ⟨some 2, some 20,
          [("a", some 1), ("b", some 2), ("subject", some 6)]⟩)] ∧
    (iterRun (QuerySet.filter (QuerySet.none qsBase) (some (Q.cond "a" (some 1))))).2.1 =
      [Call.find_items (Q.cond "a" (some 1)) (some ["a", "b", "subject"])] := by
  refine ⟨rfl, rfl, by decide, by decide⟩
